import Mathlib

/-!
Verification development for the pelican-flickrtag plugin
(src/pelican_flickrtag/plugin.py).

Shallow embedding conventions:
* Python strings are `List Char`.
* The remote Flickr client (external library `flickr`) is an oracle
  `PhotoApi`: fetching a photo's attributes and fetching its size list are
  fallible operations returning `Except PyExc`.  In the Python source the
  individual lazy attribute accesses (`photo.title`, `photo.getMedium640()`,
  ...) may each raise; we coarsen this to one fallible `fetchPhoto` call,
  which is observationally equivalent for the plugin (all these accesses sit
  inside one `try` block whose handler ignores the exception value).
* The cache file is a `FileState`; `pickleLoad` models the behaviour of
  `open(path, 'r')` + `pickle.load(f)` from the Python standard library:
  an absent file raises `IOError` at `open`, an empty file raises `EOFError`
  inside `pickle.load`, garbage data raises `pickle.UnpicklingError` (or a
  similar non-IOError, non-EOFError exception), and a file holding a valid
  dump of mapping `m` loads as `m`.
* Python dicts over photo-id keys are association lists (`Mapping`) with
  update-in-place insertion, matching dict assignment semantics.
* Jinja2 template rendering (external library) is an oracle
  `render : PhotoRecord → List Char`; the site-context merge performed in
  plugin.py lines 171-176 is absorbed into that oracle, since the site
  context is constant across one pass.
* Iteration over the Python set `photo_ids` is determinised to iteration
  over a list; `list(set(photo_ids) - cached_ids)` (plugin.py line 114) is
  modelled order-preservingly as a filter, which is set-equal to it.
-/

/-- A photo identifier: the digit string captured by the tag pattern. -/
abbrev PhotoId := List Char

/-- A resolved photo metadata record: the dict built in plugin.py lines
123-133 (or the placeholder dict of lines 136-140).  `width`/`height` are
present only when dimension inclusion is enabled. -/
structure PhotoRecord where
  title : List Char
  raw_url : List Char
  url : List Char
  width : Option Nat
  height : Option Nat
deriving DecidableEq, Repr

/-- The identifier-to-record mapping (`photo_mapping` in plugin.py). -/
abbrev Mapping := List (PhotoId × PhotoRecord)

/-- Python exception kinds the plugin's control flow distinguishes. -/
inductive PyExc where
  | ioError
  | eofError
  | unpicklingError
  | indexError
  | fetchError
deriving DecidableEq, Repr

/-- The remote photo object with its lazily fetched attributes, resolved:
`photo.title`, `photo.getMedium640()`, `photo.getMedium()`, `photo.url`. -/
structure Photo where
  title : List Char
  getMedium640 : List Char
  getMedium : List Char
  url : List Char
deriving DecidableEq, Repr

/-- One entry of the list returned by `photo.getSizes()`. -/
structure SizeEntry where
  label : List Char
  width : Nat
  height : Nat
deriving DecidableEq, Repr

/-- The remote Flickr client, as an oracle.  `fetchPhoto` covers the
attribute accesses of plugin.py lines 120-127; `getSizes` covers line 130.
Any of them may raise. -/
structure PhotoApi where
  fetchPhoto : PhotoId → Except PyExc Photo
  getSizes : PhotoId → Except PyExc (List SizeEntry)

/-- The configuration values `generic_replace` reads from the run context
(plugin.py lines 89-92 and 138-139). -/
structure Settings where
  place_holder_pict : List Char
  place_holder_link : List Char
  size_alias : List Char
  include_dimensions : Bool
deriving DecidableEq, Repr

/-- The state of the cache file at the configured path.  `valid m`
abstracts a file whose bytes are a pickle dump of mapping `m`;
`corrupt` abstracts a file holding bytes that are not a valid dump
(and are not merely a zero-byte file). -/
inductive FileState where
  | absent
  | empty
  | corrupt
  | valid (m : Mapping)

/-- Observable outcome of one cache pass: the final in-memory mapping,
the mapping written to the cache file (if any write happened), and the
list of identifiers that were handed to the remote resolver. -/
structure PassResult where
  mapping : Mapping
  written : Option Mapping
  fetched : List PhotoId
deriving DecidableEq, Repr

/-- The characters following `[` in the tag opening `[flickr:id=`. -/
def tagOpenTail : List Char :=
  ['f', 'l', 'i', 'c', 'k', 'r', ':', 'i', 'd', '=']

/-- The literal characters `[flickr:id=` opening a tag
(regex `\[flickr:id\=([0-9]+)\]`, plugin.py line 15). -/
def tagOpen : List Char := '[' :: tagOpenTail

/-- The whole literal tag text `[flickr:id=<d>]` for digit string `d`:
group 1 of the regex is `d`, group 0 is the whole tag. -/
def tagStr (d : List Char) : List Char := tagOpen ++ d ++ [']']

/-- The literal characters of the string `"http:"` (plugin.py line 68). -/
def httpColon : List Char := ['h', 't', 't', 'p', ':']

/-- The literal characters of the string `"https:"` (plugin.py line 68). -/
def httpsColon : List Char := ['h', 't', 't', 'p', 's', ':']

/-- The literal characters of the alias string `"Medium 640"`. -/
def medium640 : List Char := ['M', 'e', 'd', 'i', 'u', 'm', ' ', '6', '4', '0']

/-- The literal characters of the alias string `"Medium"`. -/
def mediumStr : List Char := ['M', 'e', 'd', 'i', 'u', 'm']

/-- The literal characters of the sentinel title `"Placeholder"`
(plugin.py line 137). -/
def placeholderTitle : List Char :=
  ['P', 'l', 'a', 'c', 'e', 'h', 'o', 'l', 'd', 'e', 'r']

/-- Fuel-indexed worker for Python `str.replace(old, new)`: scan left to
right, replace each leftmost non-overlapping occurrence of `old`, continue
scanning after the consumed occurrence.  The fuel only serves structural
recursion; `strReplace` supplies enough of it. -/
def strReplaceAux (old new : List Char) : Nat → List Char → List Char
  | _, [] => []
  | 0, s => s
  | fuel + 1, c :: rest =>
    if old ≠ [] ∧ old.isPrefixOf (c :: rest) = true then
      new ++ strReplaceAux old new fuel ((c :: rest).drop old.length)
    else
      c :: strReplaceAux old new fuel rest

/-- Python `s.replace(old, new)` for nonempty `old` (the plugin only ever
replaces nonempty literals: whole tags and scheme strings). -/
def strReplace (old new s : List Char) : List Char :=
  strReplaceAux old new s.length s

/-- Whether `pat` occurs as a contiguous substring of `s`
(Python's `pat in s`). -/
def containsSub (pat : List Char) : List Char → Bool
  | [] => pat.isPrefixOf []
  | c :: rest => pat.isPrefixOf (c :: rest) || containsSub pat rest

/-- Attempt to match the regex `\[flickr:id\=([0-9]+)\]` at the very start
of `s`.  On success returns (whole match, captured digit group, rest of the
input after the match).  Mirrors the regex engine: after the literal
opening, a maximal nonempty digit run must be followed by `]` (backtracking
cannot help, as a shorter digit run is followed by a digit, not `]`). -/
def splitTag (s : List Char) : Option (List Char × List Char × List Char) :=
  if tagOpen.isPrefixOf s then
    let after := s.drop tagOpen.length
    let digits := after.takeWhile Char.isDigit
    match after.dropWhile Char.isDigit with
    | ']' :: r => if digits = [] then none else some (tagStr digits, digits, r)
    | _ => none
  else none

/-- Fuel-indexed worker for `re.findall(flickr_regex, s)`: scan positions
left to right; at a match, emit (group 0, group 1) and resume after the
match, exactly as `re.findall` does with this pattern. -/
def flickrFindAllAux : Nat → List Char → List (List Char × List Char)
  | _, [] => []
  | 0, _ => []
  | fuel + 1, c :: rest =>
    match splitTag (c :: rest) with
    | some (w, d, r) => (w, d) :: flickrFindAllAux fuel r
    | none => flickrFindAllAux fuel rest

/-- `flickr_regex.findall(s)` (plugin.py lines 15, 101, 165): the list of
(whole tag, captured id) pairs, left to right. -/
def flickrFindAll (s : List Char) : List (List Char × List Char) :=
  flickrFindAllAux s.length s

/-- `photo_ids.add(match[1])` on a Python set, determinised to a
duplicate-free list in first-seen order. -/
def addUnique (acc : List PhotoId) (d : PhotoId) : List PhotoId :=
  if d ∈ acc then acc else acc ++ [d]

/-- Scan one item body for captured ids, extending the accumulated set
(inner loop of plugin.py lines 100-102). -/
def scanItem (acc : List PhotoId) (content : List Char) : List PhotoId :=
  (flickrFindAll content).foldl (fun a m => addUnique a m.2) acc

/-- The tag scanner (plugin.py lines 94-102): the set of unique captured
ids across all item bodies, as a duplicate-free list. -/
def scanPhotoIds (items : List (List Char)) : List PhotoId :=
  items.foldl scanItem []

/-- Python dict lookup `m[i]` / `i in m` on the photo mapping. -/
def mlookup : Mapping → PhotoId → Option PhotoRecord
  | [], _ => none
  | (k, v) :: t, i => if k = i then some v else mlookup t i

/-- Python dict assignment `m[i] = r`: update in place if the key exists,
else append. -/
def minsert : Mapping → PhotoId → PhotoRecord → Mapping
  | [], i, r => [(i, r)]
  | (k, v) :: t, i, r => if k = i then (k, r) :: t else (k, v) :: minsert t i r

/-- `url_for_alias` (plugin.py lines 63-69): choose the Medium-640 variant
exactly when the alias is `"Medium 640"`, else the Medium variant, then
perform `url.replace('http:', '').replace('https:', '')`. -/
def url_for_alias (photo : Photo) (al : List Char) : List Char :=
  let u := if al = medium640 then photo.getMedium640 else photo.getMedium
  strReplace httpsColon [] (strReplace httpColon [] u)

/-- `size_for_alias` (plugin.py lines 72-75): normalise unknown aliases to
`"Medium"`, then take the first size entry with that label;
`[...][0]` on an empty list raises `IndexError`. -/
def size_for_alias (sizes : List SizeEntry) (al : List Char) :
    Except PyExc SizeEntry :=
  let a := if al = medium640 ∨ al = mediumStr then al else mediumStr
  match sizes.filter (fun s => s.label = a) with
  | [] => .error .indexError
  | s :: _ => .ok s

/-- The body of the `try` block of plugin.py lines 122-133 for one id:
build the base record from the photo's attributes, then, when dimension
inclusion is enabled, fetch the size list, select the entry for the alias
and add `width`/`height`.  Any step may raise. -/
def resolveSteps (cfg : Settings) (api : PhotoApi) (id : PhotoId) :
    Except PyExc PhotoRecord :=
  match api.fetchPhoto id with
  | .error e => .error e
  | .ok photo =>
    let base : PhotoRecord :=
      { title := photo.title
        raw_url := url_for_alias photo cfg.size_alias
        url := photo.url
        width := none
        height := none }
    if cfg.include_dimensions then
      match api.getSizes id with
      | .error e => .error e
      | .ok sizes =>
        match size_for_alias sizes cfg.size_alias with
        | .error e => .error e
        | .ok size =>
          .ok { base with width := some size.width, height := some size.height }
    else
      .ok base

/-- The placeholder record of plugin.py lines 136-140. -/
def placeholderRecord (cfg : Settings) : PhotoRecord :=
  { title := placeholderTitle
    raw_url := cfg.place_holder_pict
    url := cfg.place_holder_link
    width := none
    height := none }

/-- Resolution of one id with the bare `except:` handler of plugin.py
line 135: any exception yields the placeholder record. -/
def resolvePhoto (cfg : Settings) (api : PhotoApi) (id : PhotoId) :
    PhotoRecord :=
  match resolveSteps cfg api id with
  | .ok r => r
  | .error _ => placeholderRecord cfg

/-- `open(tmp_file, 'r')` + `pickle.load(f)` (plugin.py lines 107-108),
modelled from the standard library's behaviour on each file state. -/
def pickleLoad : FileState → Except PyExc Mapping
  | .absent => .error .ioError
  | .empty => .error .eofError
  | .corrupt => .error .unpicklingError
  | .valid m => .ok m

/-- The fetch-and-persist block of plugin.py lines 116-145: when the
missing-id list is nonempty, resolve each id into the mapping and dump the
whole mapping to the cache file; otherwise do nothing. -/
def runFetch (cfg : Settings) (api : PhotoApi) (m0 : Mapping)
    (ids : List PhotoId) : PassResult :=
  if ids.isEmpty then
    { mapping := m0, written := none, fetched := [] }
  else
    let final := ids.foldl (fun acc i => minsert acc i (resolvePhoto cfg api i)) m0
    { mapping := final, written := some final, fetched := ids }

/-- The cache phase of `generic_replace` (plugin.py lines 106-145) for the
already-scanned id set: load the cache (catching only `IOError` and
`EOFError`, which yield an empty mapping with the id set undiffed; other
load exceptions propagate), diff the scanned ids against the cached keys
on a successful load, then fetch and persist. -/
def cachePass (cfg : Settings) (api : PhotoApi) (fileIn : FileState)
    (scanned : List PhotoId) : Except PyExc PassResult :=
  match pickleLoad fileIn with
  | .error e =>
    if e = .ioError ∨ e = .eofError then
      .ok (runFetch cfg api [] scanned)
    else
      .error e
  | .ok m =>
    .ok (runFetch cfg api m (scanned.filter (fun i => (mlookup m i).isNone)))

/-- The effective initial mapping of a pass, when the pass survives the
load: the loaded mapping, or the fresh empty mapping after a caught
`IOError`/`EOFError`. -/
def initMapping (fileIn : FileState) : Option Mapping :=
  match pickleLoad fileIn with
  | .ok m => some m
  | .error e => if e = .ioError ∨ e = .eofError then some [] else none

/-- The substitution phase of `generic_replace` for one item
(plugin.py lines 164-178): iterate over the matches found in the item's
current body; a match whose id is absent from the mapping logs an error
(counted here) and is skipped; otherwise render the record and replace
every occurrence of the literal matched tag in the current body.
Returns the final body and the number of errors logged. -/
def substItem (mp : Mapping) (render : PhotoRecord → List Char)
    (content : List Char) : List Char × Nat :=
  (flickrFindAll content).foldl
    (fun acc m =>
      match mlookup mp m.2 with
      | none => (acc.1, acc.2 + 1)
      | some r => (strReplace m.1 (render r) acc.1, acc.2))
    (content, 0)

/-- Spec-side definition, following the words of the specification only
(section 4.4): strip the leading scheme from a URL so that it becomes
protocol-relative, leaving the rest of the URL unchanged.  Used to compare
the specified URL transformation with the implemented one. -/
def specSchemeStripped (u : List Char) : List Char :=
  if httpColon.isPrefixOf u then u.drop httpColon.length
  else if httpsColon.isPrefixOf u then u.drop httpsColon.length
  else u

/-- Unary encoding of a natural number, terminated by a separator;
part of the modelled serializer for the cache file. -/
def natEnc (n : Nat) : List Char := List.replicate n 'x' ++ [';']

/-- Decode a `natEnc`-encoded number, returning it with the rest of the
input. -/
def natDec (s : List Char) : Option (Nat × List Char) :=
  match s.dropWhile (fun c => c = 'x') with
  | ';' :: r => some ((s.takeWhile (fun c => c = 'x')).length, r)
  | _ => none

/-- Length-prefixed string encoding. -/
def strEnc (s : List Char) : List Char := natEnc s.length ++ s

/-- Decode a `strEnc`-encoded string. -/
def strDec (b : List Char) : Option (List Char × List Char) :=
  match natDec b with
  | some (n, r) => if n ≤ r.length then some (r.take n, r.drop n) else none
  | none => none

/-- Encoding of an optional dimension value. -/
def optNatEnc : Option Nat → List Char
  | none => ['n']
  | some k => 'j' :: natEnc k

/-- Decode an `optNatEnc`-encoded optional dimension value. -/
def optNatDec : List Char → Option (Option Nat × List Char)
  | 'n' :: r => some (none, r)
  | 'j' :: r =>
    match natDec r with
    | some (k, r2) => some (some k, r2)
    | none => none
  | _ => none

/-- Serialize one photo record. -/
def recordEnc (r : PhotoRecord) : List Char :=
  strEnc r.title ++ strEnc r.raw_url ++ strEnc r.url ++
    optNatEnc r.width ++ optNatEnc r.height

/-- Decode one photo record. -/
def recordDec (b : List Char) : Option (PhotoRecord × List Char) :=
  match strDec b with
  | none => none
  | some (t, b1) =>
    match strDec b1 with
    | none => none
    | some (ru, b2) =>
      match strDec b2 with
      | none => none
      | some (u, b3) =>
        match optNatDec b3 with
        | none => none
        | some (w, b4) =>
          match optNatDec b4 with
          | none => none
          | some (h, b5) =>
            some ({ title := t, raw_url := ru, url := u,
                    width := w, height := h }, b5)

/-- Serialize the entries of a mapping, in order. -/
def entriesEnc : Mapping → List Char
  | [] => []
  | (i, r) :: t => strEnc i ++ recordEnc r ++ entriesEnc t

/-- Decode a known number of mapping entries. -/
def entriesDec : Nat → List Char → Option (Mapping × List Char)
  | 0, b => some ([], b)
  | n + 1, b =>
    match strDec b with
    | none => none
    | some (i, b1) =>
      match recordDec b1 with
      | none => none
      | some (r, b2) =>
        match entriesDec n b2 with
        | none => none
        | some (t, b3) => some ((i, r) :: t, b3)

/-- The modelled `pickle.dump` of the photo mapping (plugin.py line 143):
a count followed by the serialized entries.  Pickle itself is an external
library; this executable stand-in realises its documented contract of
exact round-tripping. -/
def pickleDumpBytes (m : Mapping) : List Char :=
  natEnc m.length ++ entriesEnc m

/-- The modelled `pickle.load` of the photo mapping (plugin.py line 108),
inverse of `pickleDumpBytes`; trailing bytes are ignored, as `pickle.load`
reads exactly one object. -/
def pickleLoadBytes (b : List Char) : Option Mapping :=
  match natDec b with
  | none => none
  | some (n, r) =>
    match entriesDec n r with
    | none => none
    | some (m, _) => some m

/-- A demo configuration for concrete witnesses. -/
def demoCfg : Settings :=
  { place_holder_pict := ['/', '/', 'p', 'h', '.', 'j', 'p', 'g']
    place_holder_link := ['/', '/', 'p', 'h']
    size_alias := medium640
    include_dimensions := false }

/-- A demo photo used by concrete witnesses. -/
def demoPhoto : Photo :=
  { title := ['S', 'u', 'n', 's', 'e', 't']
    getMedium640 := ['h', 't', 't', 'p', ':', '/', '/', 'a', '/', '1', '.', 'j', 'p', 'g']
    getMedium := ['h', 't', 't', 'p', ':', '/', '/', 'a', '/', 'm', '.', 'j', 'p', 'g']
    url := ['h', 't', 't', 'p', ':', '/', '/', 'f', '/', '1'] }

/-- A client oracle whose calls all succeed, for concrete witnesses. -/
def demoApi : PhotoApi :=
  { fetchPhoto := fun _ => .ok demoPhoto
    getSizes := fun _ =>
      .ok [{ label := medium640, width := 640, height := 480 }] }

/-- A client oracle whose calls all fail, for concrete witnesses. -/
def failApi : PhotoApi :=
  { fetchPhoto := fun _ => .error .fetchError
    getSizes := fun _ => .error .fetchError }

/-- A client oracle that resolves the photo but fails on the size list,
for the dimension-failure witness. -/
def sizeFailApi : PhotoApi :=
  { fetchPhoto := fun _ => .ok demoPhoto
    getSizes := fun _ => .error .fetchError }

/-- `demoCfg` with dimension inclusion switched on, for witnesses. -/
def dimsCfg : Settings :=
  { demoCfg with include_dimensions := true }

/-- A photo whose Medium-640 URL contains a second `http:` substring
beyond its leading scheme, exercising the replace-all behaviour of
plugin.py line 68. -/
def weirdPhoto : Photo :=
  { title := ['W']
    getMedium640 :=
      ['h', 't', 't', 'p', ':', '/', '/', 'a', '/',
       'h', 't', 't', 'p', ':', '/', '/', 'c']
    getMedium := ['h', 't', 't', 'p', ':', '/', '/', 'm']
    url := ['h', 't', 't', 'p', ':', '/', '/', 'u'] }

/-- A concrete photo record for witnesses. -/
def demoRec : PhotoRecord :=
  { title := ['S', 'u', 'n']
    raw_url := ['/', 'r']
    url := ['/', 'u']
    width := none
    height := none }

/-- A one-entry mapping for witnesses. -/
def demoMapOne : Mapping := [(['1'], demoRec)]

/-- A concrete stand-in for the template renderer, used by witnesses. -/
def demoRender : PhotoRecord → List Char := fun r => r.title

/-- The fuel argument of `strReplaceAux` is irrelevant once it dominates
the input length. -/
theorem strReplaceAux_fuel (old new : List Char) :
    ∀ f1 f2 s, s.length ≤ f1 → s.length ≤ f2 →
      strReplaceAux old new f1 s = strReplaceAux old new f2 s := by
  intro f1
  induction f1 with
  | zero =>
    intro f2 s h1 _
    have hs : s = [] := List.eq_nil_of_length_eq_zero (Nat.le_zero.mp h1)
    subst hs
    cases f2 <;> rfl
  | succ f ih =>
    intro f2 s h1 h2
    cases s with
    | nil => cases f2 <;> rfl
    | cons c rest =>
      cases f2 with
      | zero => simp at h2
      | succ g =>
        simp only [strReplaceAux]
        by_cases h : old ≠ [] ∧ old.isPrefixOf (c :: rest) = true
        · rw [if_pos h, if_pos h]
          have hlen : ((c :: rest).drop old.length).length ≤ rest.length := by
            rw [List.length_drop]
            have : 0 < old.length := List.length_pos.mpr h.1
            simp only [List.length_cons]
            omega
          have hf : rest.length ≤ f := by
            simpa using Nat.succ_le_succ_iff.mp h1
          have hg : rest.length ≤ g := by
            simpa using Nat.succ_le_succ_iff.mp h2
          rw [ih g ((c :: rest).drop old.length) (Nat.le_trans hlen hf)
                (Nat.le_trans hlen hg)]
        · rw [if_neg h, if_neg h]
          have hf : rest.length ≤ f := by
            simpa using Nat.succ_le_succ_iff.mp h1
          have hg : rest.length ≤ g := by
            simpa using Nat.succ_le_succ_iff.mp h2
          rw [ih g rest hf hg]

/-- `strReplace` on the empty string. -/
theorem strReplace_nil (old new : List Char) : strReplace old new [] = [] := rfl

/-- `strReplace` when `old` matches at the current position: emit `new` and
resume after the consumed occurrence. -/
theorem strReplace_cons_match (old new : List Char) (c : Char)
    (rest : List Char) (h0 : old ≠ [])
    (h1 : old.isPrefixOf (c :: rest) = true) :
    strReplace old new (c :: rest) =
      new ++ strReplace old new ((c :: rest).drop old.length) := by
  simp only [strReplace, List.length_cons, strReplaceAux, if_pos (And.intro h0 h1)]
  congr 1
  apply strReplaceAux_fuel
  · rw [List.length_drop]
    have : 0 < old.length := List.length_pos.mpr h0
    simp only [List.length_cons]
    omega
  · exact Nat.le_refl _

/-- `strReplace` when `old` does not match at the current position: keep the
character and move on. -/
theorem strReplace_cons_skip (old new : List Char) (c : Char)
    (rest : List Char)
    (h : ¬ (old ≠ [] ∧ old.isPrefixOf (c :: rest) = true)) :
    strReplace old new (c :: rest) = c :: strReplace old new rest := by
  simp only [strReplace, List.length_cons, strReplaceAux, if_neg h]

/-- Unfolding of `containsSub` on a cons cell. -/
theorem containsSub_cons (pat : List Char) (c : Char) (rest : List Char) :
    containsSub pat (c :: rest) =
      (pat.isPrefixOf (c :: rest) || containsSub pat rest) := rfl

/-- A pattern with head `a` is not a prefix of a string whose head
differs from `a`. -/
theorem isPrefixOf_cons_of_head_ne (a : Char) (t : List Char) (c : Char)
    (rest : List Char) (hne : c ≠ a) :
    (a :: t).isPrefixOf (c :: rest) = false := by
  by_contra h
  have h' : (a :: t).isPrefixOf (c :: rest) = true := by
    cases hb : (a :: t).isPrefixOf (c :: rest) with
    | false => exact absurd hb h
    | true => rfl
  have := (List.cons_prefix_cons.mp (List.isPrefixOf_iff_prefix.mp h')).1
  exact hne this.symm

/-- A pattern with head `a` does not occur in a string avoiding `a`. -/
theorem containsSub_eq_false_of_head_notMem (a : Char) (t : List Char) :
    ∀ s : List Char, a ∉ s → containsSub (a :: t) s = false := by
  intro s
  induction s with
  | nil => intro _; rfl
  | cons c rest ih =>
    intro hmem
    have hca : c ≠ a := fun h => hmem (by simp [h])
    have hrest : a ∉ rest := fun h => hmem (List.mem_cons_of_mem _ h)
    rw [containsSub_cons, isPrefixOf_cons_of_head_ne a t c rest hca, ih hrest]
    rfl

/-- `containsSub` skips over a leading segment avoiding the pattern's
head character. -/
theorem containsSub_append_left (a : Char) (t : List Char) :
    ∀ (x s : List Char), a ∉ x →
      containsSub (a :: t) (x ++ s) = containsSub (a :: t) s := by
  intro x
  induction x with
  | nil => intro s _; rfl
  | cons c x' ih =>
    intro s hmem
    have hca : c ≠ a := fun h => hmem (by simp [h])
    have hx' : a ∉ x' := fun h => hmem (List.mem_cons_of_mem _ h)
    rw [List.cons_append, containsSub_cons,
        isPrefixOf_cons_of_head_ne a t c (x' ++ s) hca, ih s hx']
    rfl

/-- A string without any occurrence of `old` is left unchanged by
`strReplace`. -/
theorem strReplace_of_not_contains (old new : List Char) :
    ∀ s, containsSub old s = false → strReplace old new s = s := by
  intro s
  induction s with
  | nil => intro _; rfl
  | cons c rest ih =>
    intro h
    rw [containsSub_cons] at h
    have h1 : old.isPrefixOf (c :: rest) = false := by
      cases hb : old.isPrefixOf (c :: rest) with
      | false => rfl
      | true => rw [hb] at h; simp at h
    have h2 : containsSub old rest = false := by
      cases hb : containsSub old rest with
      | false => rfl
      | true => rw [hb] at h; simp at h
    rw [strReplace_cons_skip]
    · rw [ih h2]
    · intro hc
      rw [h1] at hc
      exact absurd hc.2 (by simp)

/-- `strReplace` passes unchanged over a leading segment avoiding the
pattern's head character. -/
theorem strReplace_append_left (a : Char) (t new : List Char) :
    ∀ (x s : List Char), a ∉ x →
      strReplace (a :: t) new (x ++ s) = x ++ strReplace (a :: t) new s := by
  intro x
  induction x with
  | nil => intro s _; rfl
  | cons c x' ih =>
    intro s hmem
    have hca : c ≠ a := fun h => hmem (by simp [h])
    have hx' : a ∉ x' := fun h => hmem (List.mem_cons_of_mem _ h)
    rw [List.cons_append, strReplace_cons_skip]
    · rw [ih s hx', List.cons_append]
    · intro hc
      rw [isPrefixOf_cons_of_head_ne a t c (x' ++ s) hca] at hc
      exact absurd hc.2 (by simp)

/-- `strReplace` at an occurrence of `old`: the occurrence is replaced and
scanning resumes after it. -/
theorem strReplace_at_match (old new : List Char) (h : old ≠ []) :
    ∀ s, strReplace old new (old ++ s) = new ++ strReplace old new s := by
  obtain ⟨a, t, rfl⟩ := List.exists_cons_of_ne_nil h
  intro s
  rw [List.cons_append, strReplace_cons_match (a :: t) new a (t ++ s) h]
  · congr 1
    have hdrop : (a :: (t ++ s)).drop (a :: t).length = s := by
      have := List.drop_left (a :: t) s
      simp only [List.cons_append] at this
      exact this
    rw [hdrop]
  · exact List.isPrefixOf_iff_prefix.mpr (by
      rw [← List.cons_append]
      exact List.prefix_append (a :: t) s)

/-- `takeWhile` runs past a leading segment that wholly satisfies the
predicate. -/
theorem takeWhile_append_all (p : Char → Bool) :
    ∀ (d y : List Char), (∀ a ∈ d, p a = true) →
      (d ++ y).takeWhile p = d ++ y.takeWhile p := by
  intro d
  induction d with
  | nil => intro y _; rfl
  | cons a d' ih =>
    intro y h
    have ha : p a = true := h a (by simp)
    rw [List.cons_append, List.takeWhile_cons, if_pos ha,
        ih y (fun b hb => h b (List.mem_cons_of_mem _ hb)), List.cons_append]

/-- `dropWhile` drops a leading segment that wholly satisfies the
predicate. -/
theorem dropWhile_append_all (p : Char → Bool) :
    ∀ (d y : List Char), (∀ a ∈ d, p a = true) →
      (d ++ y).dropWhile p = y.dropWhile p := by
  intro d
  induction d with
  | nil => intro y _; rfl
  | cons a d' ih =>
    intro y h
    have ha : p a = true := h a (by simp)
    rw [List.cons_append, List.dropWhile_cons, if_pos ha,
        ih y (fun b hb => h b (List.mem_cons_of_mem _ hb))]

/-- What a successful `splitTag` tells us: the input decomposes as the
whole match followed by the rest, the whole match is the literal tag of
the captured group, and the captured group is a nonempty digit string. -/
theorem splitTag_eq {s w d r : List Char}
    (h : splitTag s = some (w, d, r)) :
    s = w ++ r ∧ w = tagStr d ∧ d ≠ [] ∧ d.all Char.isDigit = true := by
  simp only [splitTag] at h
  split at h
  · next hp =>
    obtain ⟨t, ht⟩ := List.isPrefixOf_iff_prefix.mp hp
    obtain rfl := ht
    rw [List.drop_left] at h
    split at h
    · next r1 heq =>
      split at h
      · exact absurd h (by simp)
      · next hdig =>
        simp only [Option.some.injEq, Prod.mk.injEq] at h
        obtain ⟨hw, hd, hr⟩ := h
        subst hw
        subst hr
        refine ⟨?_, ?_, ?_, ?_⟩
        · conv_lhs => rw [← List.takeWhile_append_dropWhile Char.isDigit t, heq]
          rw [tagStr]
          simp
        · rw [hd]
        · rw [← hd]; exact hdig
        · rw [← hd]
          exact List.all_eq_true.mpr fun x hx => List.mem_takeWhile_imp hx
    · exact absurd h (by simp)
  · exact absurd h (by simp)

/-- A successful `splitTag` strictly shortens the input. -/
theorem splitTag_length {s w d r : List Char}
    (h : splitTag s = some (w, d, r)) : r.length < s.length := by
  obtain ⟨hs, hw, hd, _⟩ := splitTag_eq h
  rw [hs, hw, List.length_append]
  have : 0 < (tagStr d).length := by
    rw [tagStr]
    simp [tagOpen]
  omega

/-- `splitTag` fails when the input does not start with `[`. -/
theorem splitTag_not_open (c : Char) (rest : List Char) (hc : c ≠ '[') :
    splitTag (c :: rest) = none := by
  have h1 : tagOpen.isPrefixOf (c :: rest) = false := by
    have h := isPrefixOf_cons_of_head_ne '[' tagOpenTail c rest hc
    exact h
  simp [splitTag, h1]

/-- `splitTag` succeeds on a literal tag for a nonempty digit string,
consuming exactly the tag. -/
theorem splitTag_tag (d : List Char) (hd : d ≠ [])
    (hdig : d.all Char.isDigit = true) (s : List Char) :
    splitTag (tagStr d ++ s) = some (tagStr d, d, s) := by
  have hshape : tagStr d ++ s = tagOpen ++ (d ++ ']' :: s) := by
    rw [tagStr]; simp
  have hp : tagOpen.isPrefixOf (tagStr d ++ s) = true := by
    apply List.isPrefixOf_iff_prefix.mpr
    rw [hshape]
    exact List.prefix_append tagOpen (d ++ ']' :: s)
  have hdrop : (tagStr d ++ s).drop tagOpen.length = d ++ ']' :: s := by
    rw [hshape]
    exact List.drop_left tagOpen (d ++ ']' :: s)
  have htake : (d ++ ']' :: s).takeWhile Char.isDigit = d := by
    rw [takeWhile_append_all Char.isDigit d (']' :: s) (List.all_eq_true.mp hdig)]
    rw [List.takeWhile_cons]
    simp
  have hdropw : (d ++ ']' :: s).dropWhile Char.isDigit = ']' :: s := by
    rw [dropWhile_append_all Char.isDigit d (']' :: s) (List.all_eq_true.mp hdig)]
    rw [List.dropWhile_cons]
    simp
  simp only [splitTag, hp, if_true, hdrop, htake, hdropw, hd, ite_false]

/-- The fuel argument of `flickrFindAllAux` is irrelevant once it
dominates the input length. -/
theorem flickrFindAllAux_fuel :
    ∀ f1 f2 s, s.length ≤ f1 → s.length ≤ f2 →
      flickrFindAllAux f1 s = flickrFindAllAux f2 s := by
  intro f1
  induction f1 with
  | zero =>
    intro f2 s h1 _
    have hs : s = [] := List.eq_nil_of_length_eq_zero (Nat.le_zero.mp h1)
    subst hs
    cases f2 <;> rfl
  | succ f ih =>
    intro f2 s h1 h2
    cases s with
    | nil => cases f2 <;> rfl
    | cons c rest =>
      cases f2 with
      | zero => simp at h2
      | succ g =>
        simp only [flickrFindAllAux]
        have hf : rest.length ≤ f := by
          simpa using Nat.succ_le_succ_iff.mp h1
        have hg : rest.length ≤ g := by
          simpa using Nat.succ_le_succ_iff.mp h2
        cases hsp : splitTag (c :: rest) with
        | none => exact ih g rest hf hg
        | some x =>
          obtain ⟨w, d, r⟩ := x
          have hlt : r.length < rest.length + 1 := by
            have := splitTag_length hsp
            simpa using this
          exact congrArg (fun l => (w, d) :: l) (ih g r (by omega) (by omega))

/-- `flickrFindAll` on the empty string. -/
theorem flickrFindAll_nil : flickrFindAll [] = [] := rfl

/-- `flickrFindAll` when no match starts at the current position. -/
theorem flickrFindAll_cons_none (c : Char) (rest : List Char)
    (h : splitTag (c :: rest) = none) :
    flickrFindAll (c :: rest) = flickrFindAll rest := by
  simp only [flickrFindAll, List.length_cons, flickrFindAllAux, h]

/-- `flickrFindAll` when a match starts at the current position: emit it
and resume after the match. -/
theorem flickrFindAll_cons_some (c : Char) (rest w d r : List Char)
    (h : splitTag (c :: rest) = some (w, d, r)) :
    flickrFindAll (c :: rest) = (w, d) :: flickrFindAll r := by
  simp only [flickrFindAll, List.length_cons, flickrFindAllAux, h]
  have hlt : r.length < rest.length + 1 := by
    have := splitTag_length h
    simpa using this
  rw [flickrFindAllAux_fuel rest.length r.length r (by omega) (by omega)]

/-- `flickrFindAll` finds nothing in a string without `[`. -/
theorem flickrFindAll_no_open :
    ∀ s : List Char, '[' ∉ s → flickrFindAll s = [] := by
  intro s
  induction s with
  | nil => intro _; rfl
  | cons c rest ih =>
    intro h
    have hc : c ≠ '[' := fun hh => h (by simp [hh])
    rw [flickrFindAll_cons_none c rest (splitTag_not_open c rest hc)]
    exact ih fun hh => h (List.mem_cons_of_mem _ hh)

/-- `flickrFindAll` passes over a leading segment without `[`. -/
theorem flickrFindAll_append_left :
    ∀ (x s : List Char), '[' ∉ x →
      flickrFindAll (x ++ s) = flickrFindAll s := by
  intro x
  induction x with
  | nil => intro s _; rfl
  | cons c x' ih =>
    intro s h
    have hc : c ≠ '[' := fun hh => h (by simp [hh])
    rw [List.cons_append,
        flickrFindAll_cons_none c (x' ++ s) (splitTag_not_open c (x' ++ s) hc)]
    exact ih s fun hh => h (List.mem_cons_of_mem _ hh)

/-- `flickrFindAll` at a literal tag: emit the tag and resume after it. -/
theorem flickrFindAll_tag (d : List Char) (hd : d ≠ [])
    (hdig : d.all Char.isDigit = true) (s : List Char) :
    flickrFindAll (tagStr d ++ s) = (tagStr d, d) :: flickrFindAll s := by
  have hshape : tagStr d ++ s = '[' :: (tagOpenTail ++ d ++ ']' :: s) := by
    rw [tagStr, tagOpen]
    simp
  rw [hshape]
  rw [flickrFindAll_cons_some '[' _ (tagStr d) d s (by rw [← hshape]; exact splitTag_tag d hd hdig s)]

/-- Every match reported by `flickrFindAll` is a literal tag over a
nonempty digit string. -/
theorem flickrFindAll_mem :
    ∀ (s w d : List Char), (w, d) ∈ flickrFindAll s →
      w = tagStr d ∧ d ≠ [] ∧ d.all Char.isDigit = true := by
  have aux : ∀ (f : Nat) (s w d : List Char), s.length ≤ f →
      (w, d) ∈ flickrFindAllAux f s →
      w = tagStr d ∧ d ≠ [] ∧ d.all Char.isDigit = true := by
    intro f
    induction f with
    | zero =>
      intro s w d hle hmem
      have hs : s = [] := List.eq_nil_of_length_eq_zero (Nat.le_zero.mp hle)
      subst hs
      simp [flickrFindAllAux] at hmem
    | succ f ih =>
      intro s w d hle hmem
      cases s with
      | nil => simp [flickrFindAllAux] at hmem
      | cons c rest =>
        simp only [flickrFindAllAux] at hmem
        have hf : rest.length ≤ f := by
          simpa using Nat.succ_le_succ_iff.mp hle
        cases hsp : splitTag (c :: rest) with
        | none =>
          rw [hsp] at hmem
          exact ih rest w d hf hmem
        | some x =>
          obtain ⟨w0, d0, r0⟩ := x
          rw [hsp] at hmem
          rcases List.mem_cons.mp hmem with heq | hmem'
          · obtain ⟨hw, hdd⟩ : w = w0 ∧ d = d0 := by
              have h1 := congrArg Prod.fst heq
              have h2 := congrArg Prod.snd heq
              exact ⟨h1, h2⟩
            subst hw
            subst hdd
            obtain ⟨_, hw0, hd0, hdig0⟩ := splitTag_eq hsp
            exact ⟨hw0, hd0, hdig0⟩
          · have hlt : r0.length < rest.length + 1 := by
              have := splitTag_length hsp
              simpa using this
            exact ih r0 w d (by omega) hmem'
  intro s w d hmem
  exact aux s.length s w d (Nat.le_refl _) hmem

/-- Dict lookup after dict assignment. -/
theorem mlookup_minsert (m : Mapping) (i : PhotoId) (rec : PhotoRecord) :
    ∀ j, mlookup (minsert m i rec) j = if j = i then some rec else mlookup m j := by
  induction m with
  | nil =>
    intro j
    by_cases hj : j = i
    · simp [minsert, mlookup, hj]
    · have hij : ¬ i = j := fun h => hj h.symm
      simp [minsert, mlookup, hj, hij]
  | cons kv t ih =>
    intro j
    obtain ⟨k, v⟩ := kv
    by_cases hk : k = i
    · subst hk
      by_cases hj : j = k
      · simp [minsert, mlookup, hj]
      · have hkj : ¬ k = j := fun h => hj h.symm
        simp [minsert, mlookup, hj, hkj]
    · rw [minsert]
      rw [if_neg hk]
      by_cases hj : k = j
      · have hji : ¬ j = i := fun h => hk (hj.trans h)
        simp [mlookup, hj, hji]
      · simp only [mlookup, hj, if_neg, ite_false]
        rw [ih j]

/-- Lookup in the mapping produced by the fetch loop of plugin.py lines
118-140: fetched ids map to their own resolution, other keys are
untouched. -/
theorem mlookup_fetchFold (cfg : Settings) (api : PhotoApi) :
    ∀ (ids : List PhotoId) (m0 : Mapping) (j : PhotoId),
      mlookup (ids.foldl (fun acc i => minsert acc i (resolvePhoto cfg api i)) m0) j =
        if j ∈ ids then some (resolvePhoto cfg api j) else mlookup m0 j := by
  intro ids
  induction ids with
  | nil => intro m0 j; simp
  | cons i t ih =>
    intro m0 j
    rw [List.foldl_cons, ih]
    by_cases hjt : j ∈ t
    · simp [hjt]
    · rw [if_neg hjt, mlookup_minsert]
      by_cases hji : j = i
      · subst hji
        simp
      · simp [hji, hjt]

/-- Membership in the result of a `set.add`. -/
theorem mem_addUnique (acc : List PhotoId) (d x : PhotoId) :
    x ∈ addUnique acc d ↔ x ∈ acc ∨ x = d := by
  rw [addUnique]
  by_cases h : d ∈ acc
  · rw [if_pos h]
    constructor
    · exact Or.inl
    · rintro (hx | rfl)
      · exact hx
      · exact h
  · rw [if_neg h]
    simp

/-- `set.add` preserves freedom from duplicates. -/
theorem nodup_addUnique (acc : List PhotoId) (d : PhotoId)
    (h : acc.Nodup) : (addUnique acc d).Nodup := by
  rw [addUnique]
  by_cases hd : d ∈ acc
  · rw [if_pos hd]
    exact h
  · rw [if_neg hd]
    rw [List.nodup_append]
    exact ⟨h, List.nodup_singleton d, fun a ha hb => by
      simp at hb
      subst hb
      exact hd ha⟩

/-- Membership after folding `set.add` over the matches of one body. -/
theorem mem_scanMatches :
    ∀ (l : List (List Char × List Char)) (acc : List PhotoId) (x : PhotoId),
      x ∈ l.foldl (fun a m => addUnique a m.2) acc ↔
        x ∈ acc ∨ ∃ w, (w, x) ∈ l := by
  intro l
  induction l with
  | nil => intro acc x; simp
  | cons m t ih =>
    intro acc x
    obtain ⟨w0, d0⟩ := m
    rw [List.foldl_cons, ih, mem_addUnique]
    simp only [List.mem_cons, Prod.mk.injEq]
    constructor
    · rintro ((hx | rfl) | ⟨w, hw⟩)
      · exact Or.inl hx
      · exact Or.inr ⟨w0, Or.inl ⟨rfl, rfl⟩⟩
      · exact Or.inr ⟨w, Or.inr hw⟩
    · rintro (hx | ⟨w, (⟨rfl, rfl⟩ | hw)⟩)
      · exact Or.inl (Or.inl hx)
      · exact Or.inl (Or.inr rfl)
      · exact Or.inr ⟨w, hw⟩

/-- Membership in one body's scan. -/
theorem mem_scanItem (acc : List PhotoId) (content : List Char) (x : PhotoId) :
    x ∈ scanItem acc content ↔ x ∈ acc ∨ ∃ w, (w, x) ∈ flickrFindAll content :=
  mem_scanMatches (flickrFindAll content) acc x

/-- One body's scan preserves freedom from duplicates. -/
theorem nodup_scanMatches :
    ∀ (l : List (List Char × List Char)) (acc : List PhotoId),
      acc.Nodup → (l.foldl (fun a m => addUnique a m.2) acc).Nodup := by
  intro l
  induction l with
  | nil => intro acc h; exact h
  | cons m t ih =>
    intro acc h
    rw [List.foldl_cons]
    exact ih _ (nodup_addUnique acc m.2 h)

/-- Membership in the scanner's accumulated result. -/
theorem mem_scanFold :
    ∀ (items : List (List Char)) (acc : List PhotoId) (x : PhotoId),
      x ∈ items.foldl scanItem acc ↔
        x ∈ acc ∨ ∃ c ∈ items, ∃ w, (w, x) ∈ flickrFindAll c := by
  intro items
  induction items with
  | nil => intro acc x; simp
  | cons c t ih =>
    intro acc x
    rw [List.foldl_cons, ih, mem_scanItem]
    simp only [List.mem_cons]
    constructor
    · rintro ((hx | ⟨w, hw⟩) | ⟨c', hc', w, hw⟩)
      · exact Or.inl hx
      · exact Or.inr ⟨c, Or.inl rfl, w, hw⟩
      · exact Or.inr ⟨c', Or.inr hc', w, hw⟩
    · rintro (hx | ⟨c', (rfl | hc'), w, hw⟩)
      · exact Or.inl (Or.inl hx)
      · exact Or.inl (Or.inr ⟨w, hw⟩)
      · exact Or.inr ⟨c', hc', w, hw⟩

/-- Decoding inverts `natEnc`, leaving trailing input untouched. -/
theorem natDec_enc (n : Nat) (r : List Char) :
    natDec (natEnc n ++ r) = some (n, r) := by
  have hall : ∀ a ∈ List.replicate n 'x', (fun c => decide (c = 'x')) a = true := by
    intro a ha
    have := List.eq_of_mem_replicate ha
    simp [this]
  have henc : natEnc n ++ r = List.replicate n 'x' ++ (';' :: r) := by
    rw [natEnc]
    simp
  rw [natDec, henc]
  rw [dropWhile_append_all _ _ _ hall, takeWhile_append_all _ _ _ hall]
  rw [List.dropWhile_cons, List.takeWhile_cons]
  simp

/-- Decoding inverts `strEnc`, leaving trailing input untouched. -/
theorem strDec_enc (s r : List Char) :
    strDec (strEnc s ++ r) = some (s, r) := by
  have henc : strEnc s ++ r = natEnc s.length ++ (s ++ r) := by
    rw [strEnc]
    simp
  rw [strDec, henc, natDec_enc]
  have hle : s.length ≤ (s ++ r).length := by
    rw [List.length_append]
    omega
  show (if s.length ≤ (s ++ r).length then
      some ((s ++ r).take s.length, (s ++ r).drop s.length) else none) = some (s, r)
  rw [if_pos hle, List.take_left, List.drop_left]

/-- Decoding inverts `optNatEnc`, leaving trailing input untouched. -/
theorem optNatDec_enc (o : Option Nat) (r : List Char) :
    optNatDec (optNatEnc o ++ r) = some (o, r) := by
  cases o with
  | none => rfl
  | some k =>
    show optNatDec ('j' :: (natEnc k ++ r)) = some (some k, r)
    rw [optNatDec, natDec_enc]

/-- Decoding inverts `recordEnc`, leaving trailing input untouched. -/
theorem recordDec_enc (rec : PhotoRecord) (r : List Char) :
    recordDec (recordEnc rec ++ r) = some (rec, r) := by
  simp only [recordDec, recordEnc, List.append_assoc, strDec_enc, optNatDec_enc]

/-- Decoding inverts `entriesEnc` for the encoded entry count. -/
theorem entriesDec_enc :
    ∀ (m : Mapping) (r : List Char),
      entriesDec m.length (entriesEnc m ++ r) = some (m, r) := by
  intro m
  induction m with
  | nil => intro r; rfl
  | cons e t ih =>
    intro r
    obtain ⟨i, rec⟩ := e
    show entriesDec (t.length + 1)
      ((strEnc i ++ recordEnc rec ++ entriesEnc t) ++ r) = some ((i, rec) :: t, r)
    simp only [entriesDec, List.append_assoc, strDec_enc, recordDec_enc, ih]

/-- A literal tag is a nonempty string. -/
theorem tagStr_ne_nil (d : List Char) : tagStr d ≠ [] := by
  rw [tagStr, tagOpen]
  simp

/-- A literal tag, exposed as a cons cell headed by `[`. -/
theorem tagStr_cons (d : List Char) :
    tagStr d = '[' :: (tagOpenTail ++ (d ++ [']'])) := by
  rw [tagStr, tagOpen]
  simp

/-- No character of a digit string is `[`. -/
theorem not_bracket_mem_digits (d : List Char)
    (h : d.all Char.isDigit = true) : '[' ∉ d := by
  intro hm
  have hd := List.all_eq_true.mp h '[' hm
  exact absurd hd (by decide)

/-- Appending a common prefix does not change prefix testing. -/
theorem isPrefixOf_append_same :
    ∀ (p a b : List Char), (p ++ a).isPrefixOf (p ++ b) = a.isPrefixOf b := by
  intro p
  induction p with
  | nil => intro a b; rfl
  | cons c p' ih =>
    intro a b
    simp only [List.cons_append, List.isPrefixOf, beq_self_eq_true, Bool.true_and]
    exact ih a b

/-- Two different digit groups followed by `]` never prefix-match. -/
theorem digit_group_no_match :
    ∀ (d2 d1 q r : List Char), d1.all Char.isDigit = true →
      d2.all Char.isDigit = true → d1 ≠ d2 →
      (d2 ++ ']' :: q).isPrefixOf (d1 ++ ']' :: r) = false := by
  intro d2
  induction d2 with
  | nil =>
    intro d1 q r h1 _ hne
    cases d1 with
    | nil => exact absurd rfl hne
    | cons c1 t1 =>
      have hc1 : Char.isDigit c1 = true := List.all_eq_true.mp h1 c1 (by simp)
      have hcne : c1 ≠ ']' := by
        intro h
        rw [h] at hc1
        exact absurd hc1 (by decide)
      rw [List.nil_append, List.cons_append]
      exact isPrefixOf_cons_of_head_ne ']' q c1 (t1 ++ ']' :: r) hcne
  | cons c2 t2 ih =>
    intro d1 q r h1 h2 hne
    have hc2 : Char.isDigit c2 = true := List.all_eq_true.mp h2 c2 (by simp)
    cases d1 with
    | nil =>
      have hcne : ']' ≠ c2 := by
        intro h
        rw [← h] at hc2
        exact absurd hc2 (by decide)
      rw [List.nil_append, List.cons_append]
      exact isPrefixOf_cons_of_head_ne c2 (t2 ++ ']' :: q) ']' r hcne
    | cons c1 t1 =>
      by_cases hcc : c2 = c1
      · subst hcc
        have ht1 : t1.all Char.isDigit = true := by
          rw [List.all_cons] at h1
          exact (Bool.and_eq_true_iff.mp h1).2
        have ht2 : t2.all Char.isDigit = true := by
          rw [List.all_cons] at h2
          exact (Bool.and_eq_true_iff.mp h2).2
        have htne : t1 ≠ t2 := fun h => hne (by rw [h])
        simp only [List.cons_append, List.isPrefixOf, beq_self_eq_true, Bool.true_and]
        exact ih t1 q r ht1 ht2 htne
      · simp only [List.cons_append, List.isPrefixOf]
        rw [beq_eq_false_iff_ne.mpr hcc]
        rfl

/-- The tag of one digit string never prefix-matches text starting with the
tag of a different digit string. -/
theorem tag_not_prefix_other (d1 d2 : List Char)
    (h1 : d1.all Char.isDigit = true) (h2 : d2.all Char.isDigit = true)
    (hne : d1 ≠ d2) (r : List Char) :
    (tagStr d2).isPrefixOf (tagStr d1 ++ r) = false := by
  have hs2 : tagStr d2 = tagOpen ++ (d2 ++ ']' :: ([] : List Char)) := by
    rw [tagStr]
    simp
  have hs1 : tagStr d1 ++ r = tagOpen ++ (d1 ++ ']' :: r) := by
    rw [tagStr]
    simp
  rw [hs1, hs2, isPrefixOf_append_same]
  exact digit_group_no_match d2 d1 [] r h1 h2 hne

/-- `strReplace` of a tag over a segment without `[`. -/
theorem strReplace_tag_append_left (d f x s : List Char) (hx : '[' ∉ x) :
    strReplace (tagStr d) f (x ++ s) = x ++ strReplace (tagStr d) f s := by
  rw [tagStr_cons]
  exact strReplace_append_left '[' _ f x s hx

/-- `strReplace` of a tag at an occurrence of that tag. -/
theorem strReplace_tag_self (d f s : List Char) :
    strReplace (tagStr d) f (tagStr d ++ s) = f ++ strReplace (tagStr d) f s :=
  strReplace_at_match (tagStr d) f (tagStr_ne_nil d) s

/-- `strReplace` of a tag leaves a string without `[` unchanged. -/
theorem strReplace_tag_none (d f s : List Char) (hs : '[' ∉ s) :
    strReplace (tagStr d) f s = s := by
  apply strReplace_of_not_contains
  rw [tagStr_cons]
  exact containsSub_eq_false_of_head_notMem '[' _ s hs

/-- `strReplace` of one tag passes over the tag of a different id. -/
theorem strReplace_tag_other (dpat dreg f : List Char)
    (hpat : dpat.all Char.isDigit = true) (hreg : dreg.all Char.isDigit = true)
    (hne : dreg ≠ dpat) (rest : List Char) :
    strReplace (tagStr dpat) f (tagStr dreg ++ rest) =
      tagStr dreg ++ strReplace (tagStr dpat) f rest := by
  have hstep : strReplace (tagStr dpat) f (tagStr dreg ++ rest) =
      '[' :: strReplace (tagStr dpat) f ((tagOpenTail ++ (dreg ++ [']'])) ++ rest) := by
    have hshape : tagStr dreg ++ rest =
        '[' :: ((tagOpenTail ++ (dreg ++ [']'])) ++ rest) := by
      rw [tagStr_cons]
      simp
    rw [hshape]
    apply strReplace_cons_skip
    intro hc
    have := hc.2
    rw [← hshape] at this
    rw [tag_not_prefix_other dreg dpat hreg hpat hne rest] at this
    exact absurd this (by simp)
  rw [hstep]
  have hnomem : '[' ∉ tagOpenTail ++ (dreg ++ [']']) := by
    intro hm
    rcases List.mem_append.mp hm with h | h
    · revert h
      decide
    · rcases List.mem_append.mp h with h' | h'
      · exact not_bracket_mem_digits dreg hreg h'
      · revert h'
        decide
  rw [tagStr_cons dpat]
  rw [strReplace_append_left '[' _ f _ rest hnomem]
  rw [tagStr_cons dreg]
  simp

/-- The matches of a body shaped as plain text around two literal tags. -/
theorem findall_two_tags (d1 d2 x y z : List Char)
    (hd1 : d1 ≠ []) (hdig1 : d1.all Char.isDigit = true)
    (hd2 : d2 ≠ []) (hdig2 : d2.all Char.isDigit = true)
    (hx : '[' ∉ x) (hy : '[' ∉ y) (hz : '[' ∉ z) :
    flickrFindAll (x ++ (tagStr d1 ++ (y ++ (tagStr d2 ++ z)))) =
      [(tagStr d1, d1), (tagStr d2, d2)] := by
  rw [flickrFindAll_append_left x _ hx,
      flickrFindAll_tag d1 hd1 hdig1,
      flickrFindAll_append_left y _ hy,
      flickrFindAll_tag d2 hd2 hdig2,
      flickrFindAll_no_open z hz]

/-- The scanner's accumulated result stays duplicate-free. -/
theorem nodup_scanFold :
    ∀ (items : List (List Char)) (acc : List PhotoId),
      acc.Nodup → (items.foldl scanItem acc).Nodup := by
  intro items
  induction items with
  | nil => intro acc h; exact h
  | cons c t ih =>
    intro acc h
    rw [List.foldl_cons]
    exact ih _ (nodup_scanMatches (flickrFindAll c) acc h)

/-- When the pass survives the load, it runs the fetch-and-persist block on
the effective initial mapping and the ids missing from it. -/
theorem cachePass_ok (cfg : Settings) (api : PhotoApi) (fileIn : FileState)
    (scanned : List PhotoId) (m : Mapping)
    (hinit : initMapping fileIn = some m) :
    cachePass cfg api fileIn scanned =
      .ok (runFetch cfg api m
        (scanned.filter (fun i => (mlookup m i).isNone))) := by
  have hfilnil : ∀ l : List PhotoId,
      l.filter (fun i => (mlookup ([] : Mapping) i).isNone) = l := by
    intro l
    simp [mlookup]
  cases fileIn with
  | valid m0 =>
    have hm : m0 = m := Option.some.inj hinit
    subst hm
    rfl
  | corrupt => exact absurd hinit (by simp [initMapping, pickleLoad])
  | absent =>
    have hm : [] = m := Option.some.inj hinit
    obtain rfl := hm.symm
    rw [hfilnil scanned]
    rfl
  | empty =>
    have hm : [] = m := Option.some.inj hinit
    obtain rfl := hm.symm
    rw [hfilnil scanned]
    rfl

/-- Claim C1: in every run of the per-kind replacement pass that survives
the cache load, the cache file is written — with the complete current
mapping — if and only if some referenced identifier is missing from the
effective loaded mapping; and when every referenced identifier is already
present in the loaded cache, the remote resolver is never invoked and no
write occurs. -/
theorem claim_C1_write_iff_missing (cfg : Settings) (api : PhotoApi)
    (fileIn : FileState) (scanned : List PhotoId) (m : Mapping)
    (res : PassResult)
    (hinit : initMapping fileIn = some m)
    (hres : cachePass cfg api fileIn scanned = .ok res) :
    (res.written.isSome = true ↔ ∃ i ∈ scanned, mlookup m i = none) ∧
    (∀ mw, res.written = some mw → mw = res.mapping) ∧
    ((∀ i ∈ scanned, (mlookup m i).isSome = true) →
      res.fetched = [] ∧ res.written = none) := by
  have hcp := cachePass_ok cfg api fileIn scanned m hinit
  rw [hres] at hcp
  obtain rfl := Except.ok.inj hcp
  by_cases hemp :
      (scanned.filter (fun i => (mlookup m i).isNone)).isEmpty = true
  · rw [runFetch, if_pos hemp]
    have hnil : scanned.filter (fun i => (mlookup m i).isNone) = [] :=
      List.isEmpty_iff.mp hemp
    refine ⟨⟨fun h => absurd h (by simp), ?_⟩, fun mw hmw => absurd hmw (by simp),
      fun _ => ⟨rfl, rfl⟩⟩
    rintro ⟨i, hi, hnone⟩
    exfalso
    have hmem : i ∈ scanned.filter (fun i => (mlookup m i).isNone) :=
      List.mem_filter.mpr ⟨hi, by simp [hnone]⟩
    rw [hnil] at hmem
    simp at hmem
  · rw [runFetch, if_neg hemp]
    have hne : scanned.filter (fun i => (mlookup m i).isNone) ≠ [] :=
      fun h => hemp (by rw [h]; rfl)
    obtain ⟨i0, hi0⟩ := List.exists_mem_of_ne_nil _ hne
    have hmem := List.mem_filter.mp hi0
    refine ⟨⟨fun _ => ⟨i0, hmem.1, Option.isNone_iff_eq_none.mp hmem.2⟩,
      fun _ => by simp⟩, fun mw hmw => (Option.some.inj hmw).symm, ?_⟩
    intro hall
    exfalso
    have hs := hall i0 hmem.1
    rw [Option.isNone_iff_eq_none.mp hmem.2] at hs
    simp at hs

/-- Claim C1 witness: a cache holding the single referenced identifier
leads to no fetch and no write. -/
theorem claim_C1_witness :
    initMapping (FileState.valid demoMapOne) = some demoMapOne ∧
    cachePass demoCfg demoApi (FileState.valid demoMapOne) [['1']] =
      .ok { mapping := demoMapOne, written := none, fetched := [] } ∧
    (((none : Option Mapping).isSome = true ↔
        ∃ i ∈ [['1']], mlookup demoMapOne i = none) ∧
      (∀ mw, (none : Option Mapping) = some mw → mw = demoMapOne) ∧
      ((∀ i ∈ [['1']], (mlookup demoMapOne i).isSome = true) →
        ([] : List PhotoId) = [] ∧ (none : Option Mapping) = none)) :=
  ⟨rfl, rfl,
    claim_C1_write_iff_missing demoCfg demoApi (FileState.valid demoMapOne)
      [['1']] demoMapOne
      { mapping := demoMapOne, written := none, fetched := [] } rfl rfl⟩

/-- Claim C4: in every pass that survives the load, each referenced
identifier missing from the loaded mapping ends up with an entry — namely
its own resolution, a real record or the placeholder — and the full mapping
is persisted; one identifier's resolution never affects another's entry,
and entries already present are unchanged. -/
theorem claim_C4_missing_resolved (cfg : Settings) (api : PhotoApi)
    (fileIn : FileState) (scanned : List PhotoId) (m : Mapping)
    (res : PassResult)
    (hinit : initMapping fileIn = some m)
    (hres : cachePass cfg api fileIn scanned = .ok res) :
    (∀ i ∈ scanned, (mlookup res.mapping i).isSome = true) ∧
    ((∃ i ∈ scanned, mlookup m i = none) → res.written = some res.mapping) ∧
    (∀ i ∈ scanned, mlookup m i = none →
      mlookup res.mapping i = some (resolvePhoto cfg api i)) ∧
    (∀ i, (mlookup m i).isSome = true → mlookup res.mapping i = mlookup m i) := by
  have hcp := cachePass_ok cfg api fileIn scanned m hinit
  rw [hres] at hcp
  obtain rfl := Except.ok.inj hcp
  by_cases hemp :
      (scanned.filter (fun i => (mlookup m i).isNone)).isEmpty = true
  · rw [runFetch, if_pos hemp]
    have hnil : scanned.filter (fun i => (mlookup m i).isNone) = [] :=
      List.isEmpty_iff.mp hemp
    have hnomiss : ∀ i ∈ scanned, mlookup m i ≠ none := by
      intro i hi hnone
      have hmem : i ∈ scanned.filter (fun i => (mlookup m i).isNone) :=
        List.mem_filter.mpr ⟨hi, by simp [hnone]⟩
      rw [hnil] at hmem
      simp at hmem
    refine ⟨?_, ?_, ?_, fun i _ => rfl⟩
    · intro i hi
      cases hmi : mlookup m i with
      | none => exact absurd hmi (hnomiss i hi)
      | some v => simp [hmi]
    · rintro ⟨i, hi, hnone⟩
      exact absurd hnone (hnomiss i hi)
    · intro i hi hnone
      exact absurd hnone (hnomiss i hi)
  · rw [runFetch, if_neg hemp]
    refine ⟨?_, fun _ => rfl, ?_, ?_⟩
    · intro i hi
      rw [mlookup_fetchFold]
      by_cases hmem : i ∈ scanned.filter (fun i => (mlookup m i).isNone)
      · rw [if_pos hmem]
        rfl
      · rw [if_neg hmem]
        cases hmi : mlookup m i with
        | none =>
          exact absurd (List.mem_filter.mpr ⟨hi, by simp [hmi]⟩) hmem
        | some v => simp
    · intro i hi hnone
      rw [mlookup_fetchFold,
          if_pos (List.mem_filter.mpr ⟨hi, by simp [hnone]⟩)]
    · intro i hsome
      rw [mlookup_fetchFold]
      have hmem : i ∉ scanned.filter (fun i => (mlookup m i).isNone) := by
        intro hmem
        have := (List.mem_filter.mp hmem).2
        rw [Option.isNone_iff_eq_none.mp this] at hsome
        simp at hsome
      rw [if_neg hmem]

/-- Claim C4 witness: one uncached identifier is resolved and the whole
mapping is persisted. -/
theorem claim_C4_witness :
    initMapping (FileState.valid []) = some [] ∧
    cachePass demoCfg demoApi (FileState.valid []) [['1']] =
      .ok { mapping := [(['1'], resolvePhoto demoCfg demoApi ['1'])],
            written := some [(['1'], resolvePhoto demoCfg demoApi ['1'])],
            fetched := [['1']] } ∧
    ((∀ i ∈ [['1']],
        (mlookup [(['1'], resolvePhoto demoCfg demoApi ['1'])] i).isSome = true) ∧
      ((∃ i ∈ [['1']], mlookup ([] : Mapping) i = none) →
        (some [(['1'], resolvePhoto demoCfg demoApi ['1'])] : Option Mapping) =
          some [(['1'], resolvePhoto demoCfg demoApi ['1'])]) ∧
      (∀ i ∈ [['1']], mlookup ([] : Mapping) i = none →
        mlookup [(['1'], resolvePhoto demoCfg demoApi ['1'])] i =
          some (resolvePhoto demoCfg demoApi i)) ∧
      (∀ i, (mlookup ([] : Mapping) i).isSome = true →
        mlookup [(['1'], resolvePhoto demoCfg demoApi ['1'])] i =
          mlookup ([] : Mapping) i)) :=
  ⟨rfl, rfl,
    claim_C4_missing_resolved demoCfg demoApi (FileState.valid [])
      [['1']] []
      { mapping := [(['1'], resolvePhoto demoCfg demoApi ['1'])],
        written := some [(['1'], resolvePhoto demoCfg demoApi ['1'])],
        fetched := [['1']] } rfl rfl⟩

/-- Claim C2: any exception during the resolution of a photo identifier is
caught, and the identifier's record becomes the placeholder record — title
the sentinel string, raw image URL the configured placeholder image, link
the configured placeholder link.  `resolvePhoto` is a total function, so
the resolution step never propagates an exception to its caller. -/
theorem claim_C2_failure_placeholder (cfg : Settings) (api : PhotoApi)
    (id : PhotoId) (e : PyExc)
    (h : resolveSteps cfg api id = .error e) :
    resolvePhoto cfg api id = placeholderRecord cfg ∧
    (resolvePhoto cfg api id).title = placeholderTitle ∧
    (resolvePhoto cfg api id).raw_url = cfg.place_holder_pict ∧
    (resolvePhoto cfg api id).url = cfg.place_holder_link := by
  have h1 : resolvePhoto cfg api id = placeholderRecord cfg := by
    simp only [resolvePhoto, h]
  exact ⟨h1, by rw [h1]; rfl, by rw [h1]; rfl, by rw [h1]; rfl⟩

/-- Claim C2 witness: a failing client call yields the placeholder record
at a concrete identifier. -/
theorem claim_C2_witness :
    resolveSteps demoCfg failApi ['1'] = .error .fetchError ∧
    (resolvePhoto demoCfg failApi ['1'] = placeholderRecord demoCfg ∧
      (resolvePhoto demoCfg failApi ['1']).title = placeholderTitle ∧
      (resolvePhoto demoCfg failApi ['1']).raw_url = demoCfg.place_holder_pict ∧
      (resolvePhoto demoCfg failApi ['1']).url = demoCfg.place_holder_link) :=
  ⟨rfl, claim_C2_failure_placeholder demoCfg failApi ['1'] .fetchError rfl⟩

/-- Claim C3 counterexample: a cache file holding corrupt (non-empty,
invalid) data does not lead to an empty-mapping start — the unpickling
exception escapes the pass, because plugin.py line 109 catches only
`IOError` and `EOFError`. -/
theorem claim_C3_counterexample :
    cachePass demoCfg demoApi FileState.corrupt [['1']] =
      Except.error PyExc.unpicklingError := rfl

/-- Claim C3 (amended): an absent cache file and an empty cache file are
treated as an empty mapping — the pass behaves exactly as with a valid
empty cache and completes without propagating an error; but load failures
other than `IOError`/`EOFError` (corrupt data) propagate. -/
theorem claim_C3_amended_load_failures (cfg : Settings) (api : PhotoApi)
    (scanned : List PhotoId) :
    cachePass cfg api FileState.absent scanned =
      cachePass cfg api (FileState.valid []) scanned ∧
    cachePass cfg api FileState.empty scanned =
      cachePass cfg api (FileState.valid []) scanned ∧
    (∃ res, cachePass cfg api FileState.absent scanned = .ok res) ∧
    (∃ res, cachePass cfg api FileState.empty scanned = .ok res) := by
  have h1 := cachePass_ok cfg api FileState.absent scanned [] rfl
  have h2 := cachePass_ok cfg api FileState.empty scanned [] rfl
  have h3 := cachePass_ok cfg api (FileState.valid []) scanned [] rfl
  exact ⟨h1.trans h3.symm, h2.trans h3.symm, ⟨_, h1⟩, ⟨_, h2⟩⟩

/-- Claim C9: the modelled serialization of the photo mapping round-trips
exactly: loading what was dumped yields an equal mapping. -/
theorem claim_C9_roundtrip (m : Mapping) :
    pickleLoadBytes (pickleDumpBytes m) = some m := by
  have h := entriesDec_enc m []
  rw [List.append_nil] at h
  simp only [pickleLoadBytes, pickleDumpBytes, natDec_enc, h]

/-- Claim C10: when the base resolution of an identifier succeeds but the
dimension lookup fails (dimension inclusion enabled; the size-list call
raises, or no size entry carries the selected label), the whole record for
that identifier becomes the placeholder — the successfully resolved title,
raw URL and link are discarded, as witnessed by the record the same inputs
produce with dimension inclusion off. -/
theorem claim_C10_dims_failure_discards (cfg : Settings) (api : PhotoApi)
    (id : PhotoId) (photo : Photo)
    (hdims : cfg.include_dimensions = true)
    (hfetch : api.fetchPhoto id = .ok photo)
    (hsize : ∃ e, api.getSizes id = .error e ∨
      ∃ sizes, api.getSizes id = .ok sizes ∧
        size_for_alias sizes cfg.size_alias = .error e) :
    resolvePhoto cfg api id = placeholderRecord cfg ∧
    resolvePhoto { cfg with include_dimensions := false } api id =
      { title := photo.title
        raw_url := url_for_alias photo cfg.size_alias
        url := photo.url
        width := none
        height := none } := by
  obtain ⟨e, hsz⟩ := hsize
  have hsteps : resolveSteps cfg api id = .error e := by
    rcases hsz with hg | ⟨sizes, hg, hs⟩
    · simp only [resolveSteps, hfetch, hdims, if_true, hg]
    · simp only [resolveSteps, hfetch, hdims, if_true, hg, hs]
  constructor
  · simp only [resolvePhoto, hsteps]
  · have h2 : resolveSteps { cfg with include_dimensions := false } api id =
        .ok { title := photo.title
              raw_url := url_for_alias photo cfg.size_alias
              url := photo.url
              width := none
              height := none } := by
      simp [resolveSteps, hfetch]
    simp only [resolvePhoto, h2]

/-- Claim C10 witness: a concrete run where the photo resolves but the
size list fails, with dimensions on and off. -/
theorem claim_C10_witness :
    dimsCfg.include_dimensions = true ∧
    sizeFailApi.fetchPhoto ['1'] = .ok demoPhoto ∧
    (∃ e, sizeFailApi.getSizes ['1'] = .error e ∨
      ∃ sizes, sizeFailApi.getSizes ['1'] = .ok sizes ∧
        size_for_alias sizes dimsCfg.size_alias = .error e) ∧
    (resolvePhoto dimsCfg sizeFailApi ['1'] = placeholderRecord dimsCfg ∧
      resolvePhoto { dimsCfg with include_dimensions := false } sizeFailApi ['1'] =
        { title := demoPhoto.title
          raw_url := url_for_alias demoPhoto dimsCfg.size_alias
          url := demoPhoto.url
          width := none
          height := none }) :=
  ⟨rfl, rfl, ⟨.fetchError, Or.inl rfl⟩,
    claim_C10_dims_failure_discards dimsCfg sizeFailApi ['1'] demoPhoto
      rfl rfl ⟨.fetchError, Or.inl rfl⟩⟩

/-- Claim C7: the tag scanner returns exactly the set of identifier
strings captured by the tag pattern across all item bodies — membership is
equivalent to being captured in some body, duplicates collapse (the result
is duplicate-free), and every returned identifier is a nonempty digit
string.  The scanner is a pure function of the bodies, so it mutates
nothing and scanning the same bodies twice trivially yields the same
set. -/
theorem claim_C7_scanner_set (items : List (List Char)) :
    (∀ d : PhotoId, d ∈ scanPhotoIds items ↔
      ∃ c ∈ items, ∃ w, (w, d) ∈ flickrFindAll c) ∧
    (scanPhotoIds items).Nodup ∧
    (∀ d ∈ scanPhotoIds items, d ≠ [] ∧ d.all Char.isDigit = true) := by
  have hmem : ∀ d : PhotoId, d ∈ scanPhotoIds items ↔
      ∃ c ∈ items, ∃ w, (w, d) ∈ flickrFindAll c := by
    intro d
    have h := mem_scanFold items [] d
    rw [scanPhotoIds]
    rw [h]
    simp
  refine ⟨hmem, nodup_scanFold items [] List.nodup_nil, ?_⟩
  intro d hd
  obtain ⟨c, _, w, hw⟩ := (hmem d).mp hd
  obtain ⟨_, hdne, hdig⟩ := flickrFindAll_mem c w d hw
  exact ⟨hdne, hdig⟩

/-- Claim C8 counterexample: the implementation strips every occurrence of
`http:`/`https:` from the chosen variant URL, not only the leading scheme;
on a URL containing a second `http:` the result differs from the
specified strip-the-scheme-only transformation. -/
theorem claim_C8_counterexample :
    url_for_alias weirdPhoto medium640 =
      ['/', '/', 'a', '/', '/', '/', 'c'] ∧
    specSchemeStripped weirdPhoto.getMedium640 =
      ['/', '/', 'a', '/', 'h', 't', 't', 'p', ':', '/', '/', 'c'] ∧
    url_for_alias weirdPhoto medium640 ≠
      specSchemeStripped weirdPhoto.getMedium640 :=
  ⟨by decide, by decide, by decide⟩

/-- Claim C8 (amended): the raw-image-URL selection uses the Medium-640
variant exactly when the configured alias equals `"Medium 640"` and the
generic Medium variant otherwise; the returned URL is the variant URL with
every `http:` occurrence removed and then every `https:` occurrence
removed — in particular, when the scheme substring occurs only as the
leading scheme, the result is the protocol-relative URL with the rest
unchanged. -/
theorem claim_C8_amended_strip (photo : Photo) (al rest : List Char)
    (hvar : (if al = medium640 then photo.getMedium640 else photo.getMedium) =
        httpColon ++ rest ∨
      (if al = medium640 then photo.getMedium640 else photo.getMedium) =
        httpsColon ++ rest)
    (hh : containsSub httpColon rest = false)
    (hhs : containsSub httpsColon rest = false) :
    url_for_alias photo al = rest := by
  rw [url_for_alias]
  rcases hvar with h | h
  · rw [h]
    rw [strReplace_at_match httpColon [] (by decide) rest]
    rw [strReplace_of_not_contains httpColon [] rest hh]
    rw [List.nil_append]
    rw [strReplace_of_not_contains httpsColon [] rest hhs]
  · rw [h]
    have hnone : containsSub httpColon (httpsColon ++ rest) = false := by
      have e1 : (':' == 's') = false := by decide
      have hh' : containsSub ['h', 't', 't', 'p', ':'] rest = false := hh
      simp [httpsColon, httpColon, containsSub, List.isPrefixOf, e1, hh']
    rw [strReplace_of_not_contains httpColon [] _ hnone]
    rw [strReplace_at_match httpsColon [] (by decide) rest]
    rw [strReplace_of_not_contains httpsColon [] rest hhs, List.nil_append]

/-- Claim C8 witness: a normal photo URL with a single leading scheme is
made protocol-relative. -/
theorem claim_C8_witness :
    ((if medium640 = medium640 then demoPhoto.getMedium640
        else demoPhoto.getMedium) =
      httpColon ++ ['/', '/', 'a', '/', '1', '.', 'j', 'p', 'g'] ∨
      (if medium640 = medium640 then demoPhoto.getMedium640
        else demoPhoto.getMedium) =
      httpsColon ++ ['/', '/', 'a', '/', '1', '.', 'j', 'p', 'g']) ∧
    containsSub httpColon ['/', '/', 'a', '/', '1', '.', 'j', 'p', 'g'] = false ∧
    containsSub httpsColon ['/', '/', 'a', '/', '1', '.', 'j', 'p', 'g'] = false ∧
    url_for_alias demoPhoto medium640 = ['/', '/', 'a', '/', '1', '.', 'j', 'p', 'g'] :=
  ⟨Or.inl (by decide), by decide, by decide,
    claim_C8_amended_strip demoPhoto medium640
      ['/', '/', 'a', '/', '1', '.', 'j', 'p', 'g']
      (Or.inl (by decide)) (by decide) (by decide)⟩

/-- Claim C5: for a content item whose body carries two tag occurrences
(around arbitrary tag-free text), both identifiers being present in the
mapping, the substitution step replaces each literal matched tag with the
rendering of its identifier's record — in particular, two occurrences of
the same identifier are both replaced, each occurrence receiving that
identifier's (identical, deterministically re-rendered) markup — and no
error is logged. -/
theorem claim_C5_replace_all_occurrences (mp : Mapping)
    (render : PhotoRecord → List Char)
    (x y z d1 d2 : List Char) (r1 r2 : PhotoRecord)
    (hx : '[' ∉ x) (hy : '[' ∉ y) (hz : '[' ∉ z)
    (hd1 : d1 ≠ []) (hdig1 : d1.all Char.isDigit = true)
    (hd2 : d2 ≠ []) (hdig2 : d2.all Char.isDigit = true)
    (hf1 : '[' ∉ render r1) (hf2 : '[' ∉ render r2)
    (h1 : mlookup mp d1 = some r1) (h2 : mlookup mp d2 = some r2) :
    substItem mp render (x ++ (tagStr d1 ++ (y ++ (tagStr d2 ++ z)))) =
      (x ++ (render r1 ++ (y ++ (render r2 ++ z))), 0) := by
  rw [substItem, findall_two_tags d1 d2 x y z hd1 hdig1 hd2 hdig2 hx hy hz]
  simp only [List.foldl_cons, List.foldl_nil, h1, h2]
  by_cases hdd : d1 = d2
  · subst hdd
    have hr : r1 = r2 := Option.some.inj (h1.symm.trans h2)
    subst hr
    have hstep1 : strReplace (tagStr d1) (render r1)
        (x ++ (tagStr d1 ++ (y ++ (tagStr d1 ++ z)))) =
        x ++ (render r1 ++ (y ++ (render r1 ++ z))) := by
      rw [strReplace_tag_append_left d1 (render r1) x _ hx,
          strReplace_tag_self,
          strReplace_tag_append_left d1 (render r1) y _ hy,
          strReplace_tag_self,
          strReplace_tag_none d1 (render r1) z hz]
    rw [hstep1]
    have hnotag : '[' ∉ x ++ (render r1 ++ (y ++ (render r1 ++ z))) := by
      intro hmem
      rcases List.mem_append.mp hmem with h | h
      · exact hx h
      rcases List.mem_append.mp h with h' | h'
      · exact hf1 h'
      rcases List.mem_append.mp h' with h'' | h''
      · exact hy h''
      rcases List.mem_append.mp h'' with h3 | h3
      · exact hf1 h3
      · exact hz h3
    rw [strReplace_tag_none d1 (render r1) _ hnotag]
  · have hstep1 : strReplace (tagStr d1) (render r1)
        (x ++ (tagStr d1 ++ (y ++ (tagStr d2 ++ z)))) =
        x ++ (render r1 ++ (y ++ (tagStr d2 ++ z))) := by
      rw [strReplace_tag_append_left d1 (render r1) x _ hx,
          strReplace_tag_self,
          strReplace_tag_append_left d1 (render r1) y _ hy,
          strReplace_tag_other d1 d2 (render r1) hdig1 hdig2
            (fun h => hdd h.symm) z,
          strReplace_tag_none d1 (render r1) z hz]
    rw [hstep1]
    have hstep2 : strReplace (tagStr d2) (render r2)
        (x ++ (render r1 ++ (y ++ (tagStr d2 ++ z)))) =
        x ++ (render r1 ++ (y ++ (render r2 ++ z))) := by
      rw [strReplace_tag_append_left d2 (render r2) x _ hx,
          strReplace_tag_append_left d2 (render r2) (render r1) _ hf1,
          strReplace_tag_append_left d2 (render r2) y _ hy,
          strReplace_tag_self,
          strReplace_tag_none d2 (render r2) z hz]
    rw [hstep2]

/-- Claim C5 witness: two occurrences of the same identifier in one body
are both replaced with the rendered record. -/
theorem claim_C5_witness :
    mlookup demoMapOne ['1'] = some demoRec ∧
    substItem demoMapOne demoRender
        (['a'] ++ (tagStr ['1'] ++ (['b'] ++ (tagStr ['1'] ++ ['c'])))) =
      (['a'] ++ (demoRender demoRec ++ (['b'] ++ (demoRender demoRec ++ ['c']))), 0) :=
  ⟨rfl,
    claim_C5_replace_all_occurrences demoMapOne demoRender
      ['a'] ['b'] ['c'] ['1'] ['1'] demoRec demoRec
      (by decide) (by decide) (by decide) (by decide) (by decide)
      (by decide) (by decide) (by decide) (by decide) rfl rfl⟩

/-- Claim C6: a matched tag occurrence whose identifier is absent from the
post-resolution mapping is left unreplaced in the body, one error is
logged for it, and substitution continues with the remaining occurrences;
`substItem` is a total function, so no exception is raised. -/
theorem claim_C6_missing_id_skipped (mp : Mapping)
    (render : PhotoRecord → List Char)
    (x y z d1 d2 : List Char) (r2 : PhotoRecord)
    (hx : '[' ∉ x) (hy : '[' ∉ y) (hz : '[' ∉ z)
    (hd1 : d1 ≠ []) (hdig1 : d1.all Char.isDigit = true)
    (hd2 : d2 ≠ []) (hdig2 : d2.all Char.isDigit = true)
    (h1 : mlookup mp d1 = none) (h2 : mlookup mp d2 = some r2) :
    substItem mp render (x ++ (tagStr d1 ++ (y ++ (tagStr d2 ++ z)))) =
      (x ++ (tagStr d1 ++ (y ++ (render r2 ++ z))), 1) := by
  have hdd : d1 ≠ d2 := by
    intro h
    rw [h, h2] at h1
    exact Option.noConfusion h1
  rw [substItem, findall_two_tags d1 d2 x y z hd1 hdig1 hd2 hdig2 hx hy hz]
  simp only [List.foldl_cons, List.foldl_nil, h1, h2]
  have hstep : strReplace (tagStr d2) (render r2)
      (x ++ (tagStr d1 ++ (y ++ (tagStr d2 ++ z)))) =
      x ++ (tagStr d1 ++ (y ++ (render r2 ++ z))) := by
    rw [strReplace_tag_append_left d2 (render r2) x _ hx,
        strReplace_tag_other d2 d1 (render r2) hdig2 hdig1 hdd _,
        strReplace_tag_append_left d2 (render r2) y _ hy,
        strReplace_tag_self,
        strReplace_tag_none d2 (render r2) z hz]
  rw [hstep]

/-- Claim C6 witness: an unmapped identifier's tag stays in place while the
mapped identifier's tag is replaced, with one error counted. -/
theorem claim_C6_witness :
    mlookup demoMapOne ['2'] = none ∧
    mlookup demoMapOne ['1'] = some demoRec ∧
    substItem demoMapOne demoRender
        (['a'] ++ (tagStr ['2'] ++ (['b'] ++ (tagStr ['1'] ++ ['c'])))) =
      (['a'] ++ (tagStr ['2'] ++ (['b'] ++ (demoRender demoRec ++ ['c']))), 1) :=
  ⟨rfl, rfl,
    claim_C6_missing_id_skipped demoMapOne demoRender
      ['a'] ['b'] ['c'] ['2'] ['1'] demoRec
      (by decide) (by decide) (by decide) (by decide) (by decide)
      (by decide) (by decide) rfl rfl⟩
